import Mathlib

/-!
Verification of the CourseraScraper pipeline against its specification.

The Python sources are shallowly embedded: paths and file contents are
`List Char`, the filesystem is an association list, Python exceptions are
`Except` errors, and the external capabilities (whisper, the OpenAI chat
API, spaCy, networkx rendering, HTTP) are passed in as explicit inputs.
All functions mirror the CPython semantics of the operations the source
uses (`os.path.basename`, `os.path.dirname`, `os.path.splitext`,
`os.path.join`, `str.replace`, `str.split`, `str.strip`, truthiness).
-/

namespace CourseraScraper

/-! ### Python string and path primitives -/

/-- Python `str` truthiness for an optional string: `None` and `""` are falsy. -/
def pyTruthy : Option (List Char) → Bool
  | none => false
  | some s => s ≠ []

/-- The characters `str.strip()` removes (the ASCII whitespace Python treats
as space; the sources only ever meet these). -/
def pyIsSpace (c : Char) : Bool :=
  c = ' ' || c = '\t' || c = '\n' || c = '\r' || c = '\x0b' || c = '\x0c'

/-- Python `s.strip()`: drop leading and trailing whitespace. -/
def pyStrip (l : List Char) : List Char :=
  ((l.dropWhile pyIsSpace).reverse.dropWhile pyIsSpace).reverse

/-- Python `s.split(sep)` for a one-character separator `sep`:
splits at every occurrence, keeping empty parts. -/
def pySplitOn (sep : Char) : List Char → List (List Char)
  | [] => [[]]
  | c :: rest =>
    match pySplitOn sep rest with
    | [] => [[c]]
    | h :: t => if c = sep then [] :: h :: t else (c :: h) :: t

/-- Python `posixpath.basename`: the part after the last `'/'`. -/
def pyBasename (p : List Char) : List Char :=
  (p.reverse.takeWhile (· ≠ '/')).reverse

/-- Python `posixpath.dirname`: the part up to the last `'/'`, with trailing
slashes stripped unless the head consists only of slashes. -/
def pyDirname (p : List Char) : List Char :=
  let head := (p.reverse.dropWhile (· ≠ '/')).reverse
  if head ≠ [] ∧ head.any (· ≠ '/') then (head.reverse.dropWhile (· = '/')).reverse
  else head

/-- The stem part of `posixpath.splitext`: everything before the last `'.'`
of the basename, except that a basename whose dots are all leading dots is
returned whole. -/
def pySplitextStem (p : List Char) : List Char :=
  let dir := (p.reverse.dropWhile (· ≠ '/')).reverse
  let base := (p.reverse.takeWhile (· ≠ '/')).reverse
  let lead := base.takeWhile (· = '.')
  let rest := base.drop lead.length
  if rest.any (· = '.') then dir ++ lead ++ ((rest.reverse.dropWhile (· ≠ '.')).tail).reverse
  else p

/-- Python `posixpath.join a b` for two components, as the source uses it. -/
def pyJoin (a b : List Char) : List Char :=
  if b.head? = some '/' then b
  else if a = [] ∨ a.getLast? = some '/' then a ++ b
  else a ++ '/' :: b

/-- Fuelled worker for `pyReplace`; one unit of fuel is spent per step and
every step consumes at least one character, so `l.length` fuel suffices. -/
def pyReplaceFuel (pat repl : List Char) : Nat → List Char → List Char
  | _, [] => []
  | 0, c :: rest => c :: rest
  | fuel + 1, c :: rest =>
    if pat ≠ [] ∧ pat.isPrefixOf (c :: rest) then
      repl ++ pyReplaceFuel pat repl fuel (rest.drop (pat.length - 1))
    else c :: pyReplaceFuel pat repl fuel rest

/-- Python `s.replace(pat, repl)` for a nonempty pattern: scan left to
right, replacing each non-overlapping occurrence and never rescanning the
replacement (the source only calls `replace` with the nonempty patterns
`"_transcript"` and `"\\"`). -/
def pyReplace (pat repl l : List Char) : List Char :=
  pyReplaceFuel pat repl l.length l

/-- Boolean occurrence test: does `pat` occur as a contiguous run in `l`? -/
def occursB (pat : List Char) : List Char → Bool
  | [] => pat.isEmpty
  | c :: rest => pat.isPrefixOf (c :: rest) || occursB pat rest

/-- The pattern `pat` occurs as a contiguous substring of `l` (Python `pat in l`). -/
def occursIn (pat l : List Char) : Prop := occursB pat l = true

instance (pat l : List Char) : Decidable (occursIn pat l) := by
  unfold occursIn; infer_instance

/-! ### The filesystem model -/

/-- A filesystem: an association list from path to file content. -/
abbrev FS := List (List Char × List Char)

/-- Create or overwrite the file at `path` (Python `open(path, 'w')` plus
`write`). -/
def fsWrite (fs : FS) (path content : List Char) : FS :=
  (path, content) :: fs.filter (fun e => e.1 ≠ path)

/-- Read back the file at `path`, if present. -/
def fsRead (fs : FS) (path : List Char) : Option (List Char) :=
  (fs.find? (fun e => e.1 = path)).map (·.2)

/-- A raised Python exception, identified by its message. -/
abbrev PyErr := List Char

/-! ### PipelineManager (src/pipeline/pipeline_manager.py) -/

/-- The literal `"_transcript"`. -/
def tSuffix : List Char := ("_transcript").toList

/-- The state `PipelineManager.__init__` establishes. -/
structure PipelineManager where
  video_file_path : Option (List Char)
  transcript_path : List Char
  base_dir : List Char
  video_name : List Char
  summary_path : List Char
  concept_map_path : List Char
  visual_map_path : List Char
  markdown_path : List Char
deriving DecidableEq

/-- The tail of `PipelineManager.__init__` after `base_dir`/`video_name`
are determined: `self.transcript_path = self.transcript_path or
os.path.join(...)` followed by the four other derived paths. -/
def pipelineFinish (video_file_path transcript_path : Option (List Char))
    (base_dir video_name : List Char) : PipelineManager :=
  { video_file_path := video_file_path
    transcript_path :=
      if pyTruthy transcript_path then transcript_path.getD []
      else pyJoin base_dir (video_name ++ ("_transcript.txt").toList)
    base_dir := base_dir
    video_name := video_name
    summary_path := pyJoin base_dir (video_name ++ ("_summary.txt").toList)
    concept_map_path := pyJoin base_dir (video_name ++ ("_concept_map.txt").toList)
    visual_map_path := pyJoin base_dir (video_name ++ ("_visual_map.png").toList)
    markdown_path := pyJoin base_dir (video_name ++ (".md").toList) }

/-- The constructor `PipelineManager.__init__(video_file_path, transcript_path)`: derive
`base_dir` and `video_name` from the video path if truthy, else from the
transcript path (stripping `"_transcript"` via `str.replace`), else raise
`ValueError`. -/
def pipelineInit (video_file_path transcript_path : Option (List Char)) :
    Except PyErr PipelineManager :=
  if pyTruthy video_file_path then
    let v := video_file_path.getD []
    .ok (pipelineFinish video_file_path transcript_path (pyDirname v)
      (pySplitextStem (pyBasename v)))
  else if pyTruthy transcript_path then
    let t := transcript_path.getD []
    .ok (pipelineFinish video_file_path transcript_path (pyDirname t)
      (pyReplace tSuffix [] (pySplitextStem (pyBasename t))))
  else
    .error (("Either video_file_path or transcript_path must be provided.").toList)

/-- The five artifact paths `__init__` derives, in the order of §3. -/
def artifactPaths (pm : PipelineManager) :
    List Char × List Char × List Char × List Char × List Char :=
  (pm.transcript_path, pm.summary_path, pm.concept_map_path,
   pm.visual_map_path, pm.markdown_path)

/-! ### TranscriptionHandler (src/handlers/transcription_handler.py) -/

/-- Method `TranscriptionHandler.transcribe`: the whisper call (which raises when
the video file is missing or unreadable) is the explicit input.  The
method catches every exception, logs it, and returns `self.transcript`,
which stays `None` on failure — no exception escapes, hence the `.ok`. -/
def transcribeMethod (whisperResult : Except PyErr (List Char)) :
    Except PyErr (Option (List Char)) :=
  match whisperResult with
  | .ok t => .ok (some t)
  | .error _ => .ok none

/-- Method `TranscriptionHandler.save_to_txt`: write only a truthy transcript;
otherwise log a warning and leave the filesystem alone. -/
def save_to_txt (transcript : Option (List Char)) (output_path : List Char) (fs : FS) : FS :=
  if pyTruthy transcript then fsWrite fs output_path (transcript.getD []) else fs

/-! ### SummaryHandler (src/handlers/summary_handler.py) -/

/-- Method `SummaryHandler.summarize`: `_read_transcript` re-raises its read
error, and the chat-completion call can raise; `summarize` catches either,
logs it, and returns `self.summary` (still `None`), never raising. -/
def summarizeMethod (transcriptRead apiResult : Except PyErr (List Char)) :
    Except PyErr (Option (List Char)) :=
  match transcriptRead with
  | .error _ => .ok none
  | .ok _ =>
    match apiResult with
    | .error _ => .ok none
    | .ok s => .ok (some s)

/-- Method `SummaryHandler.save_summary`: write only a truthy summary; otherwise
log a warning and leave the filesystem alone. -/
def save_summary (summary : Option (List Char)) (output_path : List Char) (fs : FS) : FS :=
  if pyTruthy summary then fsWrite fs output_path (summary.getD []) else fs

/-! ### ConceptMapHandler (src/handlers/concept_map_handler.py) -/

/-- The bullet-list post-processing in `generate_concept_map`:
`[f"- {line.strip()}" for line in result.split("\n") if line]`. -/
def conceptMapFromResult (result : List Char) : List (List Char) :=
  ((pySplitOn '\n' result).filter (fun line => line ≠ [])).map
    (fun line => ("- ").toList ++ pyStrip line)

/-- Method `ConceptMapHandler.generate_concept_map`: on a read or API error the
exception is caught and logged and `self.concept_map` stays `[]`; no
exception escapes. -/
def generate_concept_map (summaryRead apiResult : Except PyErr (List Char)) :
    Except PyErr (List (List Char)) :=
  match summaryRead with
  | .error _ => .ok []
  | .ok _ =>
    match apiResult with
    | .error _ => .ok []
    | .ok result => .ok (conceptMapFromResult result)

/-- Method `ConceptMapHandler.save_concept_map`: if the list is truthy, write
every point followed by `"\n"`; otherwise log a warning and write nothing. -/
def save_concept_map (concept_map : List (List Char)) (output_path : List Char) (fs : FS) : FS :=
  if concept_map ≠ [] then
    fsWrite fs output_path ((concept_map.map (fun point => point ++ ['\n'])).flatten)
  else fs

/-! ### VisualMapHandler (src/handlers/visual_map_handler.py) -/

/-- The inner loop of `_extract_entities_and_relations`:
`for i in range(len(sent_entities) - 1): relations.append((e[i], e[i+1]))`. -/
def adjacentPairs : List (List Char) → List (List Char × List Char)
  | a :: b :: rest => (a, b) :: adjacentPairs (b :: rest)
  | _ => []

/-- The relation list of `_extract_entities_and_relations`: spaCy's
per-sentence ordered entity lists are the explicit input; every sentence
with more than one entity contributes its chain of adjacent pairs. -/
def extractRelations (sents : List (List (List Char))) : List (List Char × List Char) :=
  sents.flatMap (fun sent_entities =>
    if 1 < sent_entities.length then adjacentPairs sent_entities else [])

/-- The `networkx.Graph` contents after `generate_visual_map` succeeds. -/
structure GraphData where
  nodes : List (List Char)
  edges : List (List Char × List Char)
deriving DecidableEq

/-- Undirected edge membership in the `networkx.Graph`. -/
def hasEdge (g : GraphData) (x y : List Char) : Bool :=
  g.edges.any (fun p => (p.1 = x ∧ p.2 = y) ∨ (p.1 = y ∧ p.2 = x))

/-- The graph built once both reads succeed: summary entities as nodes,
sentence-chain relations as edges (`add_edges_from` also records their
endpoints as nodes), plus each concept-map bullet with its first two
characters dropped and stripped (`point[2:].strip()`) as a bare node. -/
def generatedGraph (ents : List (List Char)) (sents : List (List (List Char)))
    (concept_map : List (List Char)) : GraphData :=
  { nodes := ents ++ (extractRelations sents).flatMap (fun p => [p.1, p.2])
      ++ concept_map.map (fun point => pyStrip (point.drop 2))
    edges := extractRelations sents }

/-- Method `VisualMapHandler.generate_visual_map`: `_read_summary` and
`_read_concept_map` both re-raise read errors; the method catches and logs
them before any graph mutation, so the graph stays empty and no exception
escapes.  The spaCy outputs (entity set, per-sentence entity lists) are
explicit inputs, used only on success. -/
def generate_visual_map (summaryRead : Except PyErr (List Char))
    (conceptRead : Except PyErr (List (List Char)))
    (ents : List (List Char)) (sents : List (List (List Char))) :
    Except PyErr GraphData :=
  match summaryRead with
  | .error _ => .ok ⟨[], []⟩
  | .ok _ =>
    match conceptRead with
    | .error _ => .ok ⟨[], []⟩
    | .ok concept_map => .ok (generatedGraph ents sents concept_map)

/-! ### MarkdownHandler (src/handlers/markdown_handler.py) -/

/-- The HTML video embed `generate_markdown` emits. -/
def vidTag (u : List Char) : List Char :=
  ("<video controls src=\"").toList ++ u ++ ("\" width=\"600\"></video>\n").toList

/-- Method `MarkdownHandler._read_file_content`: a readable file is fenced
verbatim; an unreadable one becomes the literal
`"Error reading {section} file.\n"` placeholder. -/
def mdSectionContent (r : Except PyErr (List Char)) (section_name : List Char) : List Char :=
  match r with
  | .ok content => ("```\n").toList ++ content ++ ("\n```\n").toList
  | .error _ => ("Error reading ").toList ++ section_name ++ (" file.\n").toList

/-- The body of the `## Video` section of `generate_markdown`: an HTML
embed of the URL itself when the (truthy) video path starts with
`"http"`, an embed of the relativised local path (backslashes replaced by
forward slashes) when it is local, nothing when no video path is held. -/
def videoSectionEmbed (relpathFn : List Char → List Char → List Char)
    (video_file_path : Option (List Char)) (output_markdown_path : List Char) : List Char :=
  match video_file_path with
  | none => []
  | some v =>
    if v ≠ [] then
      if ("http").toList.isPrefixOf v then vidTag v
      else vidTag (pyReplace ['\\'] ['/'] (relpathFn v (pyDirname output_markdown_path)))
    else []

/-- Method `MarkdownHandler.generate_markdown`.  The two file reads are explicit
inputs; `os.path.relpath` (whose value depends on the process working
directory) is passed in as a function of the video path and the markdown
file's directory. -/
def generateMarkdownContent (relpathFn : List Char → List Char → List Char)
    (video_file_path : Option (List Char)) (transcript_path : List Char)
    (summaryRead conceptRead : Except PyErr (List Char))
    (visual_map_path output_markdown_path : List Char) : List Char :=
  let video_name := pySplitextStem (pyBasename transcript_path)
  ('#' :: ' ' :: video_name) ++ '\n' ::
  (("\n## Video\n").toList ++
    videoSectionEmbed relpathFn video_file_path output_markdown_path ++
  (("\n## Resumen\n").toList ++ mdSectionContent summaryRead (("summary").toList) ++
  (("\n## Mapa Conceptual\n").toList ++ mdSectionContent conceptRead (("concept map").toList) ++
  (("\n## Mapa Visual\n").toList ++ (("![Mapa Visual](").toList ++
    (pyBasename visual_map_path ++ (")\n").toList))))))

/-- The first line of a document (up to the first newline). -/
def firstLineOf (l : List Char) : List Char := l.takeWhile (· ≠ '\n')

/-! ### VideoHandler (src/handlers/video_handler.py) -/

/-- The name rule `local_filename = self.video_url.split("/")[-1].split("?")[0]`. -/
def downloadFilename (url : List Char) : List Char :=
  ((pySplitOn '?' ((pySplitOn '/' url).getLastD [])).headI)

/-- Method `VideoHandler.download_video`: the streamed HTTP response is the
explicit input, as the list of `iter_content` chunks or a
`RequestException`.  On success the chunks are written in order to
`local_filename`; a `RequestException` is caught and logged and the
method returns `None` with no file written. -/
def download_video (url : List Char) (response : Except PyErr (List (List Char)))
    (fs : FS) : FS × Option (List Char) :=
  match response with
  | .error _ => (fs, none)
  | .ok chunks => (fsWrite fs (downloadFilename url) chunks.flatten,
      some (downloadFilename url))

/-! ### Claim-side definitions

These do not come from the source: each one transcribes the words of a
spec claim (or of its minimally amended form), to be compared with the
source-derived definitions above. -/

/-- Claim C3 taken literally: split on newlines, discard blank (empty)
lines, and prefix each remaining line — unchanged — once with `"- "`. -/
def claimedConceptLines (result : List Char) : List (List Char) :=
  ((pySplitOn '\n' result).filter (fun line => line ≠ [])).map
    (fun line => ("- ").toList ++ line)

/-- Amended claim C3: split on newlines, discard empty lines, strip each
remaining line of surrounding whitespace and prefix it once with `"- "`. -/
def amendedConceptLines (result : List Char) : List (List Char) :=
  ((pySplitOn '\n' result).filter (fun line => line ≠ [])).map
    (fun line => ("- ").toList ++ pyStrip line)

/-- Claim C6's description of the video section body: the HTML embed of
the remote URL, or nothing when no video path is held. -/
def httpVideoEmbed : Option (List Char) → List Char
  | none => []
  | some v => vidTag v

/-- Claim C8's name rule: the URL's final path segment (after the last
`'/'`) with any `?query` suffix removed. -/
def claimedDownloadName (url : List Char) : List Char :=
  ((url.reverse.takeWhile (· ≠ '/')).reverse).takeWhile (· ≠ '?')

/-- A pattern with no nontrivial border: no proper nonempty suffix-length
split makes the pattern overlap itself.  `"_transcript"` has this shape,
which is what makes `str.replace` scans on it easy to reason about. -/
def noOverlap (pat : List Char) : Prop :=
  ∀ ℓ, ℓ < pat.length → 0 < ℓ → pat.drop ℓ ≠ pat.take (pat.length - ℓ)

/-! ### Helper lemmas about the Python primitives -/

theorem isPrefixOf_iff_exists : ∀ (p l : List Char), p.isPrefixOf l = true ↔ ∃ t, p ++ t = l
  | [], l => by simp [List.isPrefixOf]
  | a :: p, [] => by simp [List.isPrefixOf]
  | a :: p, b :: l => by
    simp [List.isPrefixOf, isPrefixOf_iff_exists p l, List.cons_append]

theorem takeWhile_all {p : Char → Bool} {xs : List Char} (h : ∀ a ∈ xs, p a = true) :
    xs.takeWhile p = xs := by
  induction xs with
  | nil => rfl
  | cons x xs ih =>
    rw [List.takeWhile_cons, h x (by simp), ih (fun a ha => h a (by simp [ha]))]
    simp

theorem dropWhile_all {p : Char → Bool} {xs : List Char} (h : ∀ a ∈ xs, p a = true) :
    xs.dropWhile p = [] := by
  induction xs with
  | nil => rfl
  | cons x xs ih =>
    rw [List.dropWhile_cons, h x (by simp), ih (fun a ha => h a (by simp [ha]))]
    simp

theorem takeWhile_append_stop {p : Char → Bool} {xs : List Char} {c : Char} (ys : List Char)
    (hxs : ∀ a ∈ xs, p a = true) (hc : p c = false) :
    (xs ++ c :: ys).takeWhile p = xs := by
  induction xs with
  | nil => simp [List.takeWhile_cons, hc]
  | cons x xs ih =>
    rw [List.cons_append, List.takeWhile_cons, hxs x (by simp),
      ih (fun a ha => hxs a (by simp [ha]))]
    simp

theorem dropWhile_append_stop {p : Char → Bool} {xs : List Char} {c : Char} (ys : List Char)
    (hxs : ∀ a ∈ xs, p a = true) (hc : p c = false) :
    (xs ++ c :: ys).dropWhile p = c :: ys := by
  induction xs with
  | nil => simp [List.dropWhile_cons, hc]
  | cons x xs ih =>
    rw [List.cons_append, List.dropWhile_cons, hxs x (by simp)]
    simpa using ih (fun a ha => hxs a (by simp [ha]))

theorem takeWhile_append_of_any_neg {p : Char → Bool} {xs : List Char}
    (h : ∃ x ∈ xs, p x = false) (ys : List Char) :
    (xs ++ ys).takeWhile p = xs.takeWhile p := by
  induction xs with
  | nil => obtain ⟨x, hx, _⟩ := h; simp at hx
  | cons x xs ih =>
    cases hx : p x with
    | false => simp [List.takeWhile_cons, hx]
    | true =>
      rw [List.cons_append, List.takeWhile_cons, hx, List.takeWhile_cons, hx]
      obtain ⟨y, hy, hyp⟩ := h
      rcases List.mem_cons.mp hy with rfl | hy'
      · rw [hx] at hyp; cases hyp
      · rw [ih ⟨y, hy', hyp⟩]

theorem occursIn_iff (pat l : List Char) : occursIn pat l ↔ ∃ u v, u ++ (pat ++ v) = l := by
  unfold occursIn
  induction l with
  | nil =>
    simp [occursB, List.isEmpty_iff, List.append_eq_nil]
  | cons c rest ih =>
    simp only [occursB, Bool.or_eq_true, isPrefixOf_iff_exists, ih]
    constructor
    · rintro (⟨t, ht⟩ | ⟨u, v, huv⟩)
      · exact ⟨[], t, by simp [ht]⟩
      · exact ⟨c :: u, v, by simp [huv]⟩
    · rintro ⟨u, v, huv⟩
      cases u with
      | nil => exact Or.inl ⟨v, by simpa using huv⟩
      | cons a u =>
        rw [List.cons_append] at huv
        cases huv
        exact Or.inr ⟨u, v, rfl⟩

theorem occursIn_cons_of {pat B : List Char} (c : Char) (h : occursIn pat B) :
    occursIn pat (c :: B) := by
  unfold occursIn occursB
  rw [h]
  simp

theorem pyReplaceFuel_fuel_eq (pat repl : List Char) :
    ∀ (f₁ : Nat) (l : List Char) (f₂ : Nat), l.length ≤ f₁ → l.length ≤ f₂ →
    pyReplaceFuel pat repl f₁ l = pyReplaceFuel pat repl f₂ l := by
  intro f₁
  induction f₁ with
  | zero =>
    intro l f₂ h₁ _
    rw [Nat.le_zero, List.length_eq_zero] at h₁
    subst h₁; cases f₂ <;> rfl
  | succ f₁ ih =>
    intro l f₂ h₁ h₂
    cases l with
    | nil => cases f₂ <;> rfl
    | cons c rest =>
      cases f₂ with
      | zero => simp at h₂
      | succ f₂ =>
        simp only [pyReplaceFuel]
        have hr : rest.length ≤ f₁ := by simpa using h₁
        have hr' : rest.length ≤ f₂ := by simpa using h₂
        by_cases h : pat ≠ [] ∧ pat.isPrefixOf (c :: rest)
        · rw [if_pos h, if_pos h]
          have hd : (rest.drop (pat.length - 1)).length ≤ rest.length := by
            rw [List.length_drop]; exact Nat.sub_le _ _
          rw [ih _ _ (hd.trans hr) (hd.trans hr')]
        · rw [if_neg h, if_neg h, ih rest f₂ hr hr']

theorem pyReplace_nil (pat repl : List Char) : pyReplace pat repl [] = [] := rfl

theorem pyReplace_cons_pos {pat : List Char} (repl : List Char) {c : Char} {rest : List Char}
    (hp : pat ≠ []) (hpre : pat.isPrefixOf (c :: rest) = true) :
    pyReplace pat repl (c :: rest) = repl ++ pyReplace pat repl (rest.drop (pat.length - 1)) := by
  show pyReplaceFuel pat repl (rest.length + 1) (c :: rest) = _
  simp only [pyReplaceFuel]
  rw [if_pos ⟨hp, hpre⟩]
  unfold pyReplace
  congr 1
  apply pyReplaceFuel_fuel_eq
  · rw [List.length_drop]; exact (Nat.sub_le _ _).trans (Nat.le_refl _)
  · exact Nat.le_refl _

theorem pyReplace_cons_neg {pat : List Char} (repl : List Char) {c : Char} {rest : List Char}
    (hpre : pat.isPrefixOf (c :: rest) = false) :
    pyReplace pat repl (c :: rest) = c :: pyReplace pat repl rest := by
  show pyReplaceFuel pat repl (rest.length + 1) (c :: rest) = _
  simp only [pyReplaceFuel]
  rw [if_neg (by simp [hpre])]
  rfl

theorem not_isPrefixOf_append {pat B1 : List Char} (B2 : List Char) (hne : B1 ≠ [])
    (hinf : ¬ occursIn pat B1) (hov : noOverlap pat) :
    pat.isPrefixOf (B1 ++ (pat ++ B2)) = false := by
  cases hb : pat.isPrefixOf (B1 ++ (pat ++ B2)) with
  | false => rfl
  | true =>
    exfalso
    obtain ⟨t, ht⟩ := (isPrefixOf_iff_exists _ _).mp hb
    rcases le_or_lt pat.length B1.length with hle | hlt
    · have h1 : pat = B1.take pat.length := by
        have := congrArg (List.take pat.length) ht
        rwa [List.take_left, List.take_append_of_le_length hle] at this
      apply hinf
      rw [occursIn_iff]
      refine ⟨[], B1.drop pat.length, ?_⟩
      rw [List.nil_append]
      nth_rewrite 1 [h1]
      exact List.take_append_drop pat.length B1
    · have hpos : 0 < B1.length := List.length_pos.mpr hne
      have hd : pat.drop B1.length ++ t = pat ++ B2 := by
        have := congrArg (List.drop B1.length) ht
        rwa [List.drop_append_of_le_length (Nat.le_of_lt hlt), List.drop_left] at this
      have h2 : pat.drop B1.length = pat.take (pat.length - B1.length) := by
        have := congrArg (List.take (pat.length - B1.length)) hd
        rwa [List.take_left' (List.length_drop _ _),
          List.take_append_of_le_length (Nat.sub_le _ _)] at this
      exact hov B1.length hlt hpos h2

theorem pyReplace_skip (pat repl B2 : List Char) (hp : pat ≠ []) (hov : noOverlap pat) :
    ∀ B1, ¬ occursIn pat B1 →
    pyReplace pat repl (B1 ++ (pat ++ B2)) = B1 ++ (repl ++ pyReplace pat repl B2) := by
  intro B1
  induction B1 with
  | nil =>
    intro _
    rw [List.nil_append, List.nil_append]
    obtain ⟨c, pt, rfl⟩ : ∃ c pt, pat = c :: pt := by
      cases pat with
      | nil => exact absurd rfl hp
      | cons c pt => exact ⟨c, pt, rfl⟩
    rw [List.cons_append,
      pyReplace_cons_pos repl hp ((isPrefixOf_iff_exists _ _).mpr ⟨B2, by simp⟩)]
    simp [List.drop_left' (rfl : pt.length = (c :: pt).length - 1)]
  | cons c B1 ih =>
    intro hinf
    have hB1 : ¬ occursIn pat B1 := fun h => hinf (occursIn_cons_of c h)
    have hb : pat.isPrefixOf ((c :: B1) ++ (pat ++ B2)) = false :=
      not_isPrefixOf_append B2 (List.cons_ne_nil c B1) hinf hov
    rw [List.cons_append] at hb
    rw [List.cons_append, pyReplace_cons_neg repl hb, ih hB1, List.cons_append]

theorem tSuffix_noOverlap : noOverlap tSuffix := by unfold noOverlap; decide

theorem tSuffix_ne_nil : tSuffix ≠ [] := by decide

/-- Python `str.replace` on a string that is a clean stem followed by one copy of
`"_transcript"` removes exactly that copy. -/
theorem pyReplace_strip_once {B : List Char} (h : ¬ occursIn tSuffix B) :
    pyReplace tSuffix [] (B ++ tSuffix) = B := by
  have h0 : ¬ occursIn tSuffix ([] : List Char) := by decide
  have h2 := pyReplace_skip tSuffix [] [] tSuffix_ne_nil tSuffix_noOverlap [] h0
  have h1 := pyReplace_skip tSuffix [] [] tSuffix_ne_nil tSuffix_noOverlap B h
  simp only [List.append_nil, List.nil_append, pyReplace_nil] at h1 h2
  exact h1

/-- Python `str.replace` on a stem followed by two copies of `"_transcript"`
removes both copies. -/
theorem pyReplace_strip_twice {B : List Char} (h : ¬ occursIn tSuffix B) :
    pyReplace tSuffix [] (B ++ tSuffix ++ tSuffix) = B := by
  have h0 : ¬ occursIn tSuffix ([] : List Char) := by decide
  have h2 := pyReplace_skip tSuffix [] [] tSuffix_ne_nil tSuffix_noOverlap [] h0
  have h1 := pyReplace_skip tSuffix [] tSuffix tSuffix_ne_nil tSuffix_noOverlap B h
  simp only [List.append_nil, List.nil_append, pyReplace_nil] at h1 h2
  rw [List.append_assoc, h1, h2, List.append_nil]

theorem mem_decide_true {c : Char} {n : List Char} (hn : c ∉ n) :
    ∀ a ∈ n.reverse, decide (a ≠ c) = true := by
  intro a ha
  simp only [decide_eq_true_eq]
  exact fun h => hn (h ▸ List.mem_reverse.mp ha)

theorem pyBasename_append_cons (d : List Char) {n : List Char} (hn : '/' ∉ n) :
    pyBasename (d ++ '/' :: n) = n := by
  unfold pyBasename
  rw [List.reverse_append, List.reverse_cons, List.append_assoc, List.singleton_append,
    takeWhile_append_stop _ (mem_decide_true hn) (by decide), List.reverse_reverse]

theorem pyBasename_of_not_mem {n : List Char} (hn : '/' ∉ n) : pyBasename n = n := by
  unfold pyBasename
  rw [takeWhile_all (mem_decide_true hn), List.reverse_reverse]

theorem pyDirname_append_cons (d : List Char) {n : List Char} (hn : '/' ∉ n)
    (hd : d.getLast? ≠ some '/') :
    pyDirname (d ++ '/' :: n) = if d = [] then ['/'] else d := by
  unfold pyDirname
  rw [List.reverse_append, List.reverse_cons, List.append_assoc, List.singleton_append,
    dropWhile_append_stop _ (mem_decide_true hn) (by decide), List.reverse_cons,
    List.reverse_reverse]
  by_cases hnil : d = []
  · subst hnil; simp
  · rw [if_pos, if_neg hnil]
    · obtain ⟨c, rest, hrev⟩ : ∃ c rest, d.reverse = c :: rest := by
        cases hrev : d.reverse with
        | nil => exact absurd (by simpa using congrArg List.reverse hrev) hnil
        | cons c rest => exact ⟨c, rest, rfl⟩
      have hc : c ≠ '/' := by
        intro hc
        apply hd
        rw [← List.head?_reverse, hrev, hc]
        rfl
      rw [List.reverse_append, show ['/'].reverse ++ d.reverse = '/' :: d.reverse by simp,
        List.dropWhile_cons, if_pos (by simp), hrev, List.dropWhile_cons,
        if_neg (by simp [hc]), ← hrev, List.reverse_reverse]
    · constructor
      · exact fun h => hnil (by simpa using (List.append_eq_nil.mp h).1
)
      · rw [List.any_append]
        obtain ⟨c, rest, hrev⟩ : ∃ c rest, d.reverse = c :: rest := by
          cases hrev : d.reverse with
          | nil => exact absurd (by simpa using congrArg List.reverse hrev) hnil
          | cons c rest => exact ⟨c, rest, rfl⟩
        have hc : c ≠ '/' := by
          intro hc
          apply hd
          rw [← List.head?_reverse, hrev, hc]
          rfl
        have : d.any (· ≠ '/') = true := by
          rw [show d = (c :: rest).reverse by rw [← hrev, List.reverse_reverse],
            List.any_reverse, List.any_cons]
          simp [hc]
        rw [this]
        simp

theorem pySplitextStem_append_dot {s e : List Char} (hs : '/' ∉ s) (he : '/' ∉ e)
    (hdot : s.any (· ≠ '.') = true) (hede : '.' ∉ e) :
    pySplitextStem (s ++ '.' :: e) = s := by
  have hw : '/' ∉ s ++ '.' :: e := by
    simp only [List.mem_append, List.mem_cons]
    rintro (h | h | h)
    · exact hs h
    · cases h
    · exact he h
  have hdir : ((s ++ '.' :: e).reverse.dropWhile (· ≠ '/')).reverse = ([] : List Char) := by
    rw [dropWhile_all (mem_decide_true hw)]
    rfl
  have hbase : ((s ++ '.' :: e).reverse.takeWhile (· ≠ '/')).reverse = s ++ '.' :: e := by
    rw [takeWhile_all (mem_decide_true hw), List.reverse_reverse]
  have hanyneg : ∃ x ∈ s, (decide (x = '.')) = false := by
    obtain ⟨x, hxmem, hx⟩ := List.any_eq_true.mp hdot
    exact ⟨x, hxmem, by simpa using hx⟩
  have hlead : (s ++ '.' :: e).takeWhile (· = '.') = s.takeWhile (· = '.') :=
    takeWhile_append_of_any_neg hanyneg _
  have hsplit : s.takeWhile (· = '.') ++ s.dropWhile (· = '.') = s := by simp
  have hrest : (s ++ '.' :: e).drop ((s.takeWhile (· = '.')).length)
      = s.dropWhile (· = '.') ++ '.' :: e := by
    rw [show s ++ '.' :: e = s.takeWhile (· = '.') ++ (s.dropWhile (· = '.') ++ '.' :: e) by
      rw [← List.append_assoc, hsplit]]
    exact List.drop_left _ _
  have hany : (s.dropWhile (· = '.') ++ '.' :: e).any (· = '.') = true := by simp
  have htail : (((s.dropWhile (· = '.') ++ '.' :: e).reverse.dropWhile (· ≠ '.')).tail).reverse
      = s.dropWhile (· = '.') := by
    rw [List.reverse_append, List.reverse_cons, List.append_assoc, List.singleton_append,
      dropWhile_append_stop _ (mem_decide_true hede) (by decide), List.tail_cons,
      List.reverse_reverse]
  simp only [pySplitextStem]
  rw [hbase, hdir, hlead, hrest, hany, if_pos rfl, htail, List.nil_append, hsplit]

theorem mem_decide_true' {c : Char} {n : List Char} (hn : c ∉ n) :
    ∀ a ∈ n, decide (a ≠ c) = true := by
  intro a ha
  simp only [decide_eq_true_eq]
  exact fun h => hn (h ▸ ha)

theorem head?_ne_slash_append {B x : List Char} (hB : '/' ∉ B) (hx : x.head? ≠ some '/') :
    (B ++ x).head? ≠ some '/' := by
  cases B with
  | nil => simpa using hx
  | cons b B =>
    simp only [List.cons_append, List.head?_cons]
    intro h
    injection h with h'
    exact hB (h' ▸ List.mem_cons_self b B)

theorem pyJoin_std {d n : List Char} (hd : d.getLast? ≠ some '/') (hn : n.head? ≠ some '/') :
    pyJoin (if d = [] then ['/'] else d) n = d ++ '/' :: n := by
  by_cases hnil : d = []
  · subst hnil
    unfold pyJoin
    rw [if_pos rfl, if_neg hn,
      if_pos (Or.inr (show (['/'] : List Char).getLast? = some '/' by rfl))]
    rfl
  · unfold pyJoin
    rw [if_neg hnil, if_neg hn, if_neg (by
      rintro (h | h)
      · exact hnil h
      · exact hd h)]

theorem pyJoin_ne_nil {a n : List Char} (hn : n ≠ []) : pyJoin a n ≠ [] := by
  unfold pyJoin
  split_ifs
  · exact hn
  · exact List.append_ne_nil_of_right_ne_nil a hn
  · exact List.append_ne_nil_of_right_ne_nil a (List.cons_ne_nil _ _)

theorem pyBasename_pyJoin {a n : List Char} (hn : '/' ∉ n) :
    pyBasename (pyJoin a n) = n := by
  unfold pyJoin
  split_ifs with h1 h2
  · exact pyBasename_of_not_mem hn
  · rcases h2 with h | h
    · subst h
      rw [List.nil_append]
      exact pyBasename_of_not_mem hn
    · obtain ⟨ys, rfl⟩ := List.getLast?_eq_some_iff.mp h
      rw [List.append_assoc, List.singleton_append]
      exact pyBasename_append_cons ys hn
  · exact pyBasename_append_cons a hn

theorem firstLineOf_append {s : List Char} (rest : List Char) (hs : '\n' ∉ s) :
    firstLineOf (s ++ '\n' :: rest) = s := by
  unfold firstLineOf
  exact takeWhile_append_stop rest (mem_decide_true' hs) (by decide)

theorem pySplitOn_ne_nil (sep : Char) : ∀ l, pySplitOn sep l ≠ []
  | [] => by simp [pySplitOn]
  | c :: rest => by
    cases h : pySplitOn sep rest with
    | nil => exact absurd h (pySplitOn_ne_nil sep rest)
    | cons hh t =>
      simp only [pySplitOn, h]
      split_ifs <;> simp

theorem pySplitOn_headI (sep : Char) : ∀ l, (pySplitOn sep l).headI = l.takeWhile (· ≠ sep)
  | [] => rfl
  | c :: rest => by
    cases h : pySplitOn sep rest with
    | nil => exact absurd h (pySplitOn_ne_nil sep rest)
    | cons hh t =>
      have ih := pySplitOn_headI sep rest
      rw [h] at ih
      simp only [pySplitOn, h, List.takeWhile_cons]
      by_cases hc : c = sep
      · rw [if_pos hc, hc]
        simp
      · rw [if_neg hc, if_pos (by simpa using hc)]
        simpa using ih

theorem pySplitOn_of_not_mem {sep : Char} : ∀ {l : List Char}, sep ∉ l → pySplitOn sep l = [l]
  | [], _ => rfl
  | c :: rest, h => by
    have hc : ¬ c = sep := fun hc => h (hc ▸ List.mem_cons_self c rest)
    have hr : sep ∉ rest := fun hr => h (List.mem_cons_of_mem c hr)
    simp only [pySplitOn, pySplitOn_of_not_mem hr]
    rw [if_neg hc]

theorem two_le_pySplitOn_of_mem {sep : Char} : ∀ {l : List Char}, sep ∈ l →
    2 ≤ (pySplitOn sep l).length
  | [], h => by cases h
  | c :: rest, h => by
    cases hs : pySplitOn sep rest with
    | nil => exact absurd hs (pySplitOn_ne_nil sep rest)
    | cons hh t =>
      simp only [pySplitOn, hs]
      by_cases hc : c = sep
      · rw [if_pos hc]
        simp [Nat.succ_le_succ, Nat.le_add_left]
      · rw [if_neg hc]
        have hr : sep ∈ rest := by
          rcases List.mem_cons.mp h with h' | h'
          · exact absurd h'.symm hc
          · exact h'
        have := two_le_pySplitOn_of_mem hr
        rw [hs] at this
        simpa using this

theorem getLastD_irrel {t : List (List Char)} (ht : t ≠ []) (a b : List Char) :
    t.getLastD a = t.getLastD b := by
  cases t with
  | nil => exact absurd rfl ht
  | cons x t => rw [List.getLastD_cons, List.getLastD_cons]

theorem pySplitOn_getLastD (sep : Char) :
    ∀ l : List Char, (pySplitOn sep l).getLastD [] = (l.reverse.takeWhile (· ≠ sep)).reverse
  | [] => rfl
  | c :: rest => by
    cases hs : pySplitOn sep rest with
    | nil => exact absurd hs (pySplitOn_ne_nil sep rest)
    | cons hh t =>
      have ih := pySplitOn_getLastD sep rest
      rw [hs] at ih
      simp only [pySplitOn, hs, List.reverse_cons]
      by_cases hmem : sep ∈ rest
      · have hwhile : (rest.reverse ++ [c]).takeWhile (· ≠ sep)
            = rest.reverse.takeWhile (· ≠ sep) :=
          takeWhile_append_of_any_neg ⟨sep, List.mem_reverse.mpr hmem, by simp⟩ _
        have ht : t ≠ [] := by
          have := two_le_pySplitOn_of_mem hmem
          rw [hs] at this
          cases t with
          | nil => simp at this
          | cons _ _ => exact List.cons_ne_nil _ _
        by_cases hc : c = sep
        · rw [if_pos hc, hwhile, ← ih]
          exact List.getLastD_cons _ _ _
        · rw [if_neg hc, hwhile, ← ih, List.getLastD_cons, List.getLastD_cons]
          exact getLastD_irrel ht _ _
      · have hone : pySplitOn sep rest = [rest] := pySplitOn_of_not_mem hmem
        rw [hs] at hone
        injection hone with h1 h2
        have hall : ∀ a ∈ rest.reverse, (decide (a ≠ sep)) = true := by
          intro a ha
          simp only [decide_eq_true_eq]
          exact fun h => hmem (List.mem_reverse.mp (h ▸ ha))
        have hwhile : (rest.reverse ++ [c]).takeWhile (· ≠ sep)
            = rest.reverse ++ (([c] : List Char).takeWhile (· ≠ sep)) :=
          List.takeWhile_append_of_pos hall
        by_cases hc : c = sep
        · rw [if_pos hc, h2, h1, hwhile, hc]
          simp
        · rw [if_neg hc, h2, h1, hwhile]
          simp [hc]

theorem fsRead_fsWrite (fs : FS) (p c : List Char) : fsRead (fsWrite fs p c) p = some c := by
  unfold fsRead fsWrite
  rw [List.find?_cons_of_pos _ (by simp)]
  rfl

theorem pyTruthy_some_of_ne {x : List Char} (hx : x ≠ []) : pyTruthy (some x) = true := by
  unfold pyTruthy
  exact decide_eq_true hx

/-! ### The claims -/

/-- C5, counterexample: on an input-read failure (the whisper call raising
because the video file is missing), `TranscriptionHandler.transcribe` does
NOT re-raise: it completes normally with `self.transcript` still `None`. -/
theorem C5_counterexample :
    transcribeMethod (.error (("video file missing").toList)) = .ok none ∧
    transcribeMethod (.error (("video file missing").toList))
      ≠ .error (("video file missing").toList) := by
  refine ⟨rfl, ?_⟩
  intro h
  cases h

/-- C5 (amended): on an input-read failure every one of the Transcribe,
Summarize, ConceptMap and VisualMap stages logs the error and swallows it
to an empty/absent result (`None`, `None`, `[]`, empty graph); none of
them re-raises, so each produce method returns normally. -/
theorem C5_amended_all_stages_swallow (e : PyErr) (api : Except PyErr (List Char))
    (cRead : Except PyErr (List (List Char))) (s : List Char)
    (ents : List (List Char)) (sents : List (List (List Char))) :
    transcribeMethod (.error e) = .ok none ∧
    summarizeMethod (.error e) api = .ok none ∧
    generate_concept_map (.error e) api = .ok [] ∧
    generate_visual_map (.error e) cRead ents sents = .ok ⟨[], []⟩ ∧
    generate_visual_map (.ok s) (.error e) ents sents = .ok ⟨[], []⟩ :=
  ⟨rfl, rfl, rfl, rfl, rfl⟩

/-- C7: saving an empty/absent transcript, summary or concept map returns
normally (the functions are total, so no exception is modelled as
escaping) and leaves the filesystem — including any pre-existing file at
the target path — completely unchanged. -/
theorem C7_empty_save_writes_nothing (t s : Option (List Char)) (cm : List (List Char))
    (p₁ p₂ p₃ : List Char) (fs : FS) (ht : pyTruthy t = false) (hs : pyTruthy s = false)
    (hcm : cm = []) :
    save_to_txt t p₁ fs = fs ∧ save_summary s p₂ fs = fs ∧ save_concept_map cm p₃ fs = fs := by
  subst hcm
  unfold save_to_txt save_summary save_concept_map
  rw [ht, hs]
  exact ⟨rfl, rfl, by simp⟩

/-- C7 witness: a `None` transcript, an empty-string summary and an empty
concept map leave a filesystem holding an old file at the target path
untouched. -/
theorem C7_witness :
    pyTruthy none = false ∧ pyTruthy (some []) = false ∧
    (save_to_txt none (("p").toList) [((("p").toList), ("old").toList)]
        = [((("p").toList), ("old").toList)] ∧
      save_summary (some []) (("p").toList) [((("p").toList), ("old").toList)]
        = [((("p").toList), ("old").toList)] ∧
      save_concept_map [] (("p").toList) [((("p").toList), ("old").toList)]
        = [((("p").toList), ("old").toList)]) :=
  ⟨by decide, by decide,
    C7_empty_save_writes_nothing none (some []) [] _ _ _ _ (by decide) (by decide) rfl⟩

/-- C8: a successful download writes exactly one file, named the URL's
final path segment with any `?query` suffix removed, whose content is the
concatenation of the streamed response chunks. -/
theorem C8_download_writes_streamed_body (url : List Char) (chunks : List (List Char))
    (fs : FS) :
    download_video url (.ok chunks) fs
      = (fsWrite fs (downloadFilename url) chunks.flatten, some (downloadFilename url)) ∧
    downloadFilename url = claimedDownloadName url ∧
    fsRead (download_video url (.ok chunks) fs).1 (downloadFilename url)
      = some chunks.flatten := by
  refine ⟨rfl, ?_, ?_⟩
  · unfold downloadFilename claimedDownloadName
    rw [pySplitOn_getLastD, pySplitOn_headI]
  · exact fsRead_fsWrite fs _ _

/-- C4: a sentence recognised with the ordered entity list `[X, Y, Z]`
contributes the edges `(X, Y)` and `(Y, Z)` to the visual-map graph, and
any `(X, Z)` edge can only come from a different sentence. -/
theorem C4_chain_edges (ents : List (List Char)) (sents : List (List (List Char)))
    (cm : List (List Char)) (X Y Z : List Char)
    (hmem : [X, Y, Z] ∈ sents) (hXY : X ≠ Y) (hYZ : Y ≠ Z) :
    hasEdge (generatedGraph ents sents cm) X Y = true ∧
    hasEdge (generatedGraph ents sents cm) Y Z = true ∧
    (hasEdge (generatedGraph ents sents cm) X Z = true →
      ∃ s ∈ sents, s ≠ [X, Y, Z] ∧
        ((X, Z) ∈ adjacentPairs s ∨ (Z, X) ∈ adjacentPairs s)) := by
  unfold hasEdge generatedGraph extractRelations
  simp only [List.any_eq_true, List.mem_flatMap, decide_eq_true_eq]
  refine ⟨⟨(X, Y), ⟨[X, Y, Z], hmem, by simp [adjacentPairs]⟩, Or.inl ⟨rfl, rfl⟩⟩,
    ⟨(Y, Z), ⟨[X, Y, Z], hmem, by simp [adjacentPairs]⟩, Or.inl ⟨rfl, rfl⟩⟩, ?_⟩
  rintro ⟨⟨a, b⟩, ⟨s, hsmem, hps⟩, hcond⟩
  have hadj : (a, b) ∈ adjacentPairs s := by
    by_cases hlen : 1 < s.length
    · rwa [if_pos hlen] at hps
    · rw [if_neg hlen] at hps
      cases hps
  have hpair : (X, Z) ∈ adjacentPairs s ∨ (Z, X) ∈ adjacentPairs s := by
    rcases hcond with ⟨h1, h2⟩ | ⟨h1, h2⟩
    · rw [← h1, ← h2]; exact Or.inl hadj
    · rw [← h1, ← h2]; exact Or.inr hadj
  refine ⟨s, hsmem, ?_, hpair⟩
  rintro rfl
  have hxyz : adjacentPairs [X, Y, Z] = [(X, Y), (Y, Z)] := rfl
  rcases hpair with h | h
  · rw [hxyz] at h
    rcases List.mem_cons.mp h with h' | h'
    · injection h' with ha hb
      exact hYZ hb.symm
    · have h'' : (X, Z) = (Y, Z) := by simpa using h'
      injection h'' with ha hb
      exact hXY ha
  · rw [hxyz] at h
    rcases List.mem_cons.mp h with h' | h'
    · injection h' with ha hb
      exact hXY hb
    · have h'' : (Z, X) = (Y, Z) := by simpa using h'
      injection h'' with ha hb
      exact hYZ ha.symm

/-- C4 witness: with spaCy returning the single sentence
`["X", "Y", "Z"]`, the graph has the edges X—Y and Y—Z, and an X—Z edge
would have to come from another sentence. -/
theorem C4_chain_edges_witness :
    (("X").toList ∈ ([[("X").toList, ("Y").toList, ("Z").toList]] :
        List (List (List Char))).flatten ∧ ("X").toList ≠ ("Y").toList ∧
      ("Y").toList ≠ ("Z").toList) ∧
    (hasEdge (generatedGraph [] [[("X").toList, ("Y").toList, ("Z").toList]] [])
        (("X").toList) (("Y").toList) = true ∧
      hasEdge (generatedGraph [] [[("X").toList, ("Y").toList, ("Z").toList]] [])
        (("Y").toList) (("Z").toList) = true ∧
      (hasEdge (generatedGraph [] [[("X").toList, ("Y").toList, ("Z").toList]] [])
          (("X").toList) (("Z").toList) = true →
        ∃ s ∈ [[("X").toList, ("Y").toList, ("Z").toList]],
          s ≠ [("X").toList, ("Y").toList, ("Z").toList] ∧
            (((("X").toList), (("Z").toList)) ∈ adjacentPairs s ∨
              ((("Z").toList), (("X").toList)) ∈ adjacentPairs s))) :=
  ⟨by decide,
    C4_chain_edges [] [[("X").toList, ("Y").toList, ("Z").toList]] []
      (("X").toList) (("Y").toList) (("Z").toList) (by decide) (by decide) (by decide)⟩

/-- C3, counterexample: for the raw response `" Point A\n"` the code does
not merely drop blank lines and prefix the surviving lines: it also
strips each kept line, so the saved file holds `"- Point A\n"`, not the
`"-  Point A\n"` the claim's rule produces. -/
theorem C3_counterexample :
    conceptMapFromResult ((" Point A\n").toList)
      ≠ claimedConceptLines ((" Point A\n").toList) ∧
    fsRead (save_concept_map (conceptMapFromResult ((" Point A\n").toList)) (("p").toList) [])
      (("p").toList) = some (("- Point A\n").toList) ∧
    claimedConceptLines ((" Point A\n").toList) = [("-  Point A").toList] :=
  ⟨by decide, rfl, by decide⟩

/-- C3 (amended): the concept-map stage splits the raw response on
newlines, discards empty lines (whitespace-only lines are kept), strips
each remaining line of surrounding whitespace and prefixes it once with
`"- "`; in particular, for the response `"Point A\n\nPoint B\n"` the
saved concept-map file contains exactly `"- Point A\n- Point B\n"`. -/
theorem C3_amended_bullets (result p : List Char) (fs : FS) :
    conceptMapFromResult result = amendedConceptLines result ∧
    fsRead (save_concept_map (conceptMapFromResult (("Point A\n\nPoint B\n").toList)) p fs) p
      = some (("- Point A\n- Point B\n").toList) := by
  refine ⟨rfl, ?_⟩
  unfold save_concept_map
  rw [if_pos (by decide :
    conceptMapFromResult (("Point A\n\nPoint B\n").toList) ≠ []), fsRead_fsWrite]
  rfl

/-- C9: when both a video path and a transcript path are supplied, the
constructor raises nothing, derives `base_dir` and `video_name` from the
video path with no `"_transcript"` stripping, and keeps the supplied
transcript path verbatim while deriving the other four paths from the
video stem. -/
theorem C9_both_paths_supplied (v t : List Char) (hv : v ≠ []) (ht : t ≠ []) :
    pipelineInit (some v) (some t) = .ok
      { video_file_path := some v
        transcript_path := t
        base_dir := pyDirname v
        video_name := pySplitextStem (pyBasename v)
        summary_path :=
          pyJoin (pyDirname v) (pySplitextStem (pyBasename v) ++ ("_summary.txt").toList)
        concept_map_path :=
          pyJoin (pyDirname v) (pySplitextStem (pyBasename v) ++ ("_concept_map.txt").toList)
        visual_map_path :=
          pyJoin (pyDirname v) (pySplitextStem (pyBasename v) ++ ("_visual_map.png").toList)
        markdown_path :=
          pyJoin (pyDirname v) (pySplitextStem (pyBasename v) ++ (".md").toList) } := by
  unfold pipelineInit pipelineFinish
  rw [if_pos (show pyTruthy (some v) = true by simp [pyTruthy, hv])]
  simp [pyTruthy, ht]

/-- C9 witness. -/
theorem C9_witness :
    (("v.mp4").toList ≠ ([] : List Char)) ∧ (("t.txt").toList ≠ ([] : List Char)) ∧
    pipelineInit (some (("v.mp4").toList)) (some (("t.txt").toList)) = .ok
      { video_file_path := some (("v.mp4").toList)
        transcript_path := ("t.txt").toList
        base_dir := pyDirname (("v.mp4").toList)
        video_name := pySplitextStem (pyBasename (("v.mp4").toList))
        summary_path := pyJoin (pyDirname (("v.mp4").toList))
          (pySplitextStem (pyBasename (("v.mp4").toList)) ++ ("_summary.txt").toList)
        concept_map_path := pyJoin (pyDirname (("v.mp4").toList))
          (pySplitextStem (pyBasename (("v.mp4").toList)) ++ ("_concept_map.txt").toList)
        visual_map_path := pyJoin (pyDirname (("v.mp4").toList))
          (pySplitextStem (pyBasename (("v.mp4").toList)) ++ ("_visual_map.png").toList)
        markdown_path := pyJoin (pyDirname (("v.mp4").toList))
          (pySplitextStem (pyBasename (("v.mp4").toList)) ++ (".md").toList) } :=
  ⟨by decide, by decide, C9_both_paths_supplied _ _ (by decide) (by decide)⟩

/-- C2, counterexample: `str.replace` strips every occurrence, so the
stem `"a_transcript_transcript"` yields `video_name = "a"`, not the
`"a_transcript"` that stripping exactly one occurrence would leave. -/
theorem C2_counterexample :
    (pipelineInit none (some (("d/a_transcript_transcript.txt").toList))).toOption.map
      (fun pm => pm.video_name) = some (("a").toList) ∧
    (("a").toList : List Char) ≠ ("a_transcript").toList :=
  ⟨rfl, by decide⟩

/-- C2 (amended): for a transcript path whose stem is a clean base name
followed by copies of `"_transcript"`, the constructor strips every
occurrence of the substring: a stem carrying it twice loses both. -/
theorem C2_amended_strips_all (d B : List Char) (h1 : '/' ∉ B) (h2 : ¬ occursIn tSuffix B) :
    (pipelineInit none
        (some (d ++ '/' :: (B ++ tSuffix ++ tSuffix ++ (".txt").toList)))).toOption.map
      (fun pm => pm.video_name) = some B := by
  rw [show (".txt").toList = '.' :: ("txt").toList from rfl]
  have hs : '/' ∉ B ++ tSuffix ++ tSuffix := by
    intro hm
    rcases List.mem_append.mp hm with hm' | hm'
    · rcases List.mem_append.mp hm' with hm'' | hm''
      · exact h1 hm''
      · exact absurd hm'' (by decide)
    · exact absurd hm' (by decide)
  have hn : '/' ∉ B ++ tSuffix ++ tSuffix ++ ('.' :: ("txt").toList) := by
    intro hm
    rcases List.mem_append.mp hm with hm' | hm'
    · exact hs hm'
    · exact absurd hm' (by decide)
  have hne : d ++ '/' :: (B ++ tSuffix ++ tSuffix ++ ('.' :: ("txt").toList)) ≠ [] :=
    List.append_ne_nil_of_right_ne_nil d (List.cons_ne_nil _ _)
  have hdot : (B ++ tSuffix ++ tSuffix).any (· ≠ '.') = true := by
    rw [List.any_append, show tSuffix.any (· ≠ '.') = true from by decide, Bool.or_true]
  unfold pipelineInit
  rw [if_neg (by decide : ¬ pyTruthy (none : Option (List Char)) = true),
    if_pos (show pyTruthy (some _) = true by simp [pyTruthy, hne])]
  simp only [Except.toOption, Option.map_some, Option.getD_some, pipelineFinish]
  rw [pyBasename_append_cons d hn,
    pySplitextStem_append_dot hs (by decide) hdot (by decide),
    pyReplace_strip_twice h2]
  rfl

/-- C2 witness. -/
theorem C2_amended_witness :
    ('/' ∉ ("lec").toList ∧ ¬ occursIn tSuffix (("lec").toList)) ∧
    (Except.toOption (pipelineInit none
        (some (("v").toList ++ '/' ::
          (("lec").toList ++ tSuffix ++ tSuffix ++ (".txt").toList))))).map
      (fun pm => pm.video_name) = some (("lec").toList) :=
  ⟨⟨by decide, by decide⟩,
    C2_amended_strips_all (("v").toList) (("lec").toList) (by decide) (by decide)⟩

/-- C1, counterexample: for the base name `B = "a_transcript"` the two
starting modes disagree: starting from the video `"d/a_transcript.mp4"`
derives `"d/a_transcript_summary.txt"`, while starting from the
transcript `"d/a_transcript_transcript.txt"` over-strips and derives
`"d/a_summary.txt"`. -/
theorem C1_counterexample :
    (pipelineInit (some (("d/a_transcript.mp4").toList)) none).toOption.map
      (fun pm => pm.summary_path) = some (("d/a_transcript_summary.txt").toList) ∧
    (pipelineInit none (some (("d/a_transcript_transcript.txt").toList))).toOption.map
      (fun pm => pm.summary_path) = some (("d/a_summary.txt").toList) ∧
    (("d/a_summary.txt").toList : List Char) ≠ ("d/a_transcript_summary.txt").toList :=
  ⟨rfl, rfl, by decide⟩

/-- C1 (amended): for every base name `B` that does not contain the
substring `"_transcript"` (with `B` a plain stem: no separator, not all
dots), a run started from the video `{dir}/{B}.{ext}` and a run started
from the transcript `{dir}/{B}_transcript.txt` derive, in the
constructor, exactly the five artifact paths `{B}_transcript.txt`,
`{B}_summary.txt`, `{B}_concept_map.txt`, `{B}_visual_map.png` and
`{B}.md`, each joined to the input's directory, identically in both
modes. -/
theorem C1_amended_five_paths (d B ext : List Char)
    (hd : d.getLast? ≠ some '/') (hB : '/' ∉ B) (hBdot : B.any (· ≠ '.') = true)
    (hBt : ¬ occursIn tSuffix B) (hext : '/' ∉ ext) (hextdot : '.' ∉ ext) :
    (pipelineInit (some (d ++ '/' :: (B ++ '.' :: ext))) none).toOption.map artifactPaths
      = some
        (pyJoin (pyDirname (d ++ '/' :: (B ++ '.' :: ext))) (B ++ ("_transcript.txt").toList),
         pyJoin (pyDirname (d ++ '/' :: (B ++ '.' :: ext))) (B ++ ("_summary.txt").toList),
         pyJoin (pyDirname (d ++ '/' :: (B ++ '.' :: ext))) (B ++ ("_concept_map.txt").toList),
         pyJoin (pyDirname (d ++ '/' :: (B ++ '.' :: ext))) (B ++ ("_visual_map.png").toList),
         pyJoin (pyDirname (d ++ '/' :: (B ++ '.' :: ext))) (B ++ (".md").toList)) ∧
    (pipelineInit none (some (d ++ '/' :: (B ++ ("_transcript.txt").toList)))).toOption.map
        artifactPaths
      = some
        (pyJoin (pyDirname (d ++ '/' :: (B ++ '.' :: ext))) (B ++ ("_transcript.txt").toList),
         pyJoin (pyDirname (d ++ '/' :: (B ++ '.' :: ext))) (B ++ ("_summary.txt").toList),
         pyJoin (pyDirname (d ++ '/' :: (B ++ '.' :: ext))) (B ++ ("_concept_map.txt").toList),
         pyJoin (pyDirname (d ++ '/' :: (B ++ '.' :: ext))) (B ++ ("_visual_map.png").toList),
         pyJoin (pyDirname (d ++ '/' :: (B ++ '.' :: ext))) (B ++ (".md").toList)) := by
  have htlit : ("_transcript.txt").toList = tSuffix ++ ('.' :: ("txt").toList) := rfl
  have hvn : '/' ∉ B ++ '.' :: ext := by
    intro hm
    rcases List.mem_append.mp hm with hm' | hm'
    · exact hB hm'
    · rcases List.mem_cons.mp hm' with hm'' | hm''
      · exact absurd hm'' (by decide)
      · exact hext hm''
  have hBts : '/' ∉ B ++ tSuffix := by
    intro hm
    rcases List.mem_append.mp hm with hm' | hm'
    · exact hB hm'
    · exact absurd hm' (by decide)
  have htn : '/' ∉ B ++ ("_transcript.txt").toList := by
    rw [htlit, ← List.append_assoc]
    intro hm
    rcases List.mem_append.mp hm with hm' | hm'
    · exact hBts hm'
    · exact absurd hm' (by decide)
  have hvne : d ++ '/' :: (B ++ '.' :: ext) ≠ [] :=
    List.append_ne_nil_of_right_ne_nil d (List.cons_ne_nil _ _)
  have htne : d ++ '/' :: (B ++ ("_transcript.txt").toList) ≠ [] :=
    List.append_ne_nil_of_right_ne_nil d (List.cons_ne_nil _ _)
  have hDv : pyDirname (d ++ '/' :: (B ++ '.' :: ext)) = if d = [] then ['/'] else d :=
    pyDirname_append_cons d hvn hd
  have hDt : pyDirname (d ++ '/' :: (B ++ ("_transcript.txt").toList))
      = if d = [] then ['/'] else d :=
    pyDirname_append_cons d htn hd
  have hstemv : pySplitextStem (pyBasename (d ++ '/' :: (B ++ '.' :: ext))) = B := by
    rw [pyBasename_append_cons d hvn, pySplitextStem_append_dot hB hext hBdot hextdot]
  have htsdot : (B ++ tSuffix).any (· ≠ '.') = true := by
    rw [List.any_append, show tSuffix.any (· ≠ '.') = true from by decide, Bool.or_true]
  have hstemt : pySplitextStem (pyBasename (d ++ '/' :: (B ++ ("_transcript.txt").toList)))
      = B ++ tSuffix := by
    rw [pyBasename_append_cons d htn, htlit, ← List.append_assoc,
      pySplitextStem_append_dot hBts (by decide) htsdot (by decide)]
  have hhead : (B ++ ("_transcript.txt").toList).head? ≠ some '/' :=
    head?_ne_slash_append hB (by decide)
  constructor
  · unfold pipelineInit
    rw [if_pos (show pyTruthy (some (d ++ '/' :: (B ++ '.' :: ext))) = true by
      simp [pyTruthy, hvne])]
    simp only [Except.toOption, Option.map_some, Option.getD_some, pipelineFinish,
      artifactPaths]
    rw [hstemv, hDv]
    simp only [pyTruthy]
    rfl
  · unfold pipelineInit
    rw [if_neg (by decide : ¬ pyTruthy (none : Option (List Char)) = true),
      if_pos (show pyTruthy (some (d ++ '/' :: (B ++ ("_transcript.txt").toList))) = true by
        simp [pyTruthy, htne])]
    simp only [Except.toOption, Option.map_some, Option.getD_some, pipelineFinish,
      artifactPaths]
    rw [hstemt, pyReplace_strip_once hBt, hDv, hDt, pyJoin_std hd hhead]
    simp only [pyTruthy]
    rw [ite_self]
    rfl

/-- C1 witness. -/
theorem C1_amended_witness :
    ((("course").toList.getLast? ≠ some '/') ∧ '/' ∉ ("lec1").toList ∧
      (("lec1").toList.any (· ≠ '.') = true) ∧ ¬ occursIn tSuffix (("lec1").toList) ∧
      '/' ∉ ("mp4").toList ∧ '.' ∉ ("mp4").toList) ∧
    ((Except.toOption (pipelineInit
          (some (("course").toList ++ '/' :: (("lec1").toList ++ '.' :: ("mp4").toList)))
          none)).map artifactPaths
        = some
          (pyJoin (pyDirname (("course").toList ++ '/' ::
              (("lec1").toList ++ '.' :: ("mp4").toList)))
            (("lec1").toList ++ ("_transcript.txt").toList),
           pyJoin (pyDirname (("course").toList ++ '/' ::
              (("lec1").toList ++ '.' :: ("mp4").toList)))
            (("lec1").toList ++ ("_summary.txt").toList),
           pyJoin (pyDirname (("course").toList ++ '/' ::
              (("lec1").toList ++ '.' :: ("mp4").toList)))
            (("lec1").toList ++ ("_concept_map.txt").toList),
           pyJoin (pyDirname (("course").toList ++ '/' ::
              (("lec1").toList ++ '.' :: ("mp4").toList)))
            (("lec1").toList ++ ("_visual_map.png").toList),
           pyJoin (pyDirname (("course").toList ++ '/' ::
              (("lec1").toList ++ '.' :: ("mp4").toList)))
            (("lec1").toList ++ (".md").toList)) ∧
      (Except.toOption (pipelineInit none
          (some (("course").toList ++ '/' ::
            (("lec1").toList ++ ("_transcript.txt").toList))))).map artifactPaths
        = some
          (pyJoin (pyDirname (("course").toList ++ '/' ::
              (("lec1").toList ++ '.' :: ("mp4").toList)))
            (("lec1").toList ++ ("_transcript.txt").toList),
           pyJoin (pyDirname (("course").toList ++ '/' ::
              (("lec1").toList ++ '.' :: ("mp4").toList)))
            (("lec1").toList ++ ("_summary.txt").toList),
           pyJoin (pyDirname (("course").toList ++ '/' ::
              (("lec1").toList ++ '.' :: ("mp4").toList)))
            (("lec1").toList ++ ("_concept_map.txt").toList),
           pyJoin (pyDirname (("course").toList ++ '/' ::
              (("lec1").toList ++ '.' :: ("mp4").toList)))
            (("lec1").toList ++ ("_visual_map.png").toList),
           pyJoin (pyDirname (("course").toList ++ '/' ::
              (("lec1").toList ++ '.' :: ("mp4").toList)))
            (("lec1").toList ++ (".md").toList))) :=
  ⟨⟨by decide, by decide, by decide, by decide, by decide, by decide⟩,
    C1_amended_five_paths (("course").toList) (("lec1").toList) (("mp4").toList)
      (by decide) (by decide) (by decide) (by decide) (by decide) (by decide)⟩

/-- C10: the generated markdown document's first heading line is the
transcript file's basename stem, so a pipeline whose transcript path is
`{B}_transcript.txt` gets the title `"# B_transcript"` — not the
stripped base name `B` used for the other derived paths. -/
theorem C10_title_is_transcript_stem (d B : List Char)
    (relpathFn : List Char → List Char → List Char) (video : Option (List Char))
    (sR cR : Except PyErr (List Char)) (vis outp : List Char) (pm : PipelineManager)
    (hB : '/' ∉ B) (hBn : '\n' ∉ B)
    (hpm : pipelineInit none (some (pyJoin d (B ++ ("_transcript.txt").toList))) = .ok pm) :
    firstLineOf (generateMarkdownContent relpathFn video pm.transcript_path sR cR vis outp)
      = '#' :: ' ' :: (B ++ tSuffix) ∧ B ++ tSuffix ≠ B := by
  have htlit : ("_transcript.txt").toList = tSuffix ++ ('.' :: ("txt").toList) := rfl
  have hBts : '/' ∉ B ++ tSuffix := by
    intro hm
    rcases List.mem_append.mp hm with hm' | hm'
    · exact hB hm'
    · exact absurd hm' (by decide)
  have htn : '/' ∉ B ++ ("_transcript.txt").toList := by
    rw [htlit, ← List.append_assoc]
    intro hm
    rcases List.mem_append.mp hm with hm' | hm'
    · exact hBts hm'
    · exact absurd hm' (by decide)
  have htsdot : (B ++ tSuffix).any (· ≠ '.') = true := by
    rw [List.any_append, show tSuffix.any (· ≠ '.') = true from by decide, Bool.or_true]
  have hlitne : (B ++ ("_transcript.txt").toList) ≠ [] :=
    List.append_ne_nil_of_right_ne_nil B (by decide)
  have htpne : pyJoin d (B ++ ("_transcript.txt").toList) ≠ [] := pyJoin_ne_nil hlitne
  have hptp : pm.transcript_path = pyJoin d (B ++ ("_transcript.txt").toList) := by
    unfold pipelineInit at hpm
    rw [if_neg (by decide : ¬ pyTruthy (none : Option (List Char)) = true),
      if_pos (pyTruthy_some_of_ne htpne)] at hpm
    injection hpm with h
    rw [← h]
    simp only [pipelineFinish]
    rw [if_pos (pyTruthy_some_of_ne htpne)]
    rfl
  have hstem : pySplitextStem (pyBasename (pyJoin d (B ++ ("_transcript.txt").toList)))
      = B ++ tSuffix := by
    rw [pyBasename_pyJoin htn, htlit, ← List.append_assoc,
      pySplitextStem_append_dot hBts (by decide) htsdot (by decide)]
  have hnl : '\n' ∉ ('#' :: ' ' :: (B ++ tSuffix)) := by
    intro hm
    rcases List.mem_cons.mp hm with h' | h'
    · exact absurd h' (by decide)
    rcases List.mem_cons.mp h' with h'' | h''
    · exact absurd h'' (by decide)
    rcases List.mem_append.mp h'' with h3 | h3
    · exact hBn h3
    · exact absurd h3 (by decide)
  constructor
  · unfold generateMarkdownContent
    rw [hptp, hstem]
    exact firstLineOf_append _ (fun hm => hnl (by simp [hm]))
  · intro h
    have hlen := congrArg List.length h
    rw [List.length_append] at hlen
    simp [tSuffix] at hlen

/-- C10 witness. -/
theorem C10_witness :
    ('/' ∉ ("lec").toList ∧ '\n' ∉ ("lec").toList) ∧
    (firstLineOf (generateMarkdownContent (fun _ _ => []) none
        (PipelineManager.mk none (("v/lec_transcript.txt").toList) (("v").toList)
          (("lec").toList) (("v/lec_summary.txt").toList)
          (("v/lec_concept_map.txt").toList) (("v/lec_visual_map.png").toList)
          (("v/lec.md").toList)).transcript_path
        (Except.error []) (Except.error []) [] [])
        = '#' :: ' ' :: (("lec").toList ++ tSuffix) ∧
      ("lec").toList ++ tSuffix ≠ ("lec").toList) :=
  ⟨⟨by decide, by decide⟩,
    C10_title_is_transcript_stem (("v").toList) (("lec").toList) (fun _ _ => []) none
      (Except.error []) (Except.error []) [] []
      (PipelineManager.mk none (("v/lec_transcript.txt").toList) (("v").toList)
        (("lec").toList) (("v/lec_summary.txt").toList)
        (("v/lec_concept_map.txt").toList) (("v/lec_visual_map.png").toList)
        (("v/lec.md").toList))
      (by decide) (by decide) rfl⟩

/-- C6: with an unreadable summary file (and everything else readable),
markdown assembly still produces the complete document in the fixed
section order; the summary section body is exactly the literal
`"Error reading summary file.\n"` placeholder while the other sections
carry their normal content, independent of `os.path.relpath`. -/
theorem C6_missing_summary_placeholder (relpathFn : List Char → List Char → List Char)
    (video : Option (List Char)) (t e cC vis outp : List Char)
    (h : video = none ∨ ∃ v, video = some v ∧ v ≠ [] ∧
      (("http").toList.isPrefixOf v) = true) :
    generateMarkdownContent relpathFn video t (.error e) (.ok cC) vis outp
      = ('#' :: ' ' :: pySplitextStem (pyBasename t)) ++ '\n' ::
        (("\n## Video\n").toList ++ httpVideoEmbed video ++
          (("\n## Resumen\nError reading summary file.\n").toList ++
            (("\n## Mapa Conceptual\n```\n").toList ++ cC ++ ("\n```\n").toList ++
              (("\n## Mapa Visual\n![Mapa Visual](").toList ++
                (pyBasename vis ++ (")\n").toList))))) := by
  have e1 : ("\n## Resumen\nError reading summary file.\n").toList
      = ("\n## Resumen\n").toList ++
        (("Error reading ").toList ++ (("summary").toList ++ (" file.\n").toList)) := by
    decide
  have e2 : ("\n## Mapa Conceptual\n```\n").toList
      = ("\n## Mapa Conceptual\n").toList ++ ("```\n").toList := by decide
  have e4 : ("\n## Mapa Visual\n![Mapa Visual](").toList
      = ("\n## Mapa Visual\n").toList ++ ("![Mapa Visual](").toList := by decide
  rcases h with rfl | ⟨v, rfl, hv, hhttp⟩
  · rw [e1, e2, e4]
    simp only [generateMarkdownContent, mdSectionContent, httpVideoEmbed, videoSectionEmbed,
      List.append_assoc, List.cons_append, List.nil_append]
  · rw [e1, e2, e4]
    simp only [generateMarkdownContent, mdSectionContent, httpVideoEmbed, videoSectionEmbed,
      List.append_assoc, List.cons_append, List.nil_append]
    rw [if_pos hv, if_pos hhttp]

/-- C6 witness. -/
theorem C6_witness :
    ((none : Option (List Char)) = none ∨ ∃ v, (none : Option (List Char)) = some v ∧
      v ≠ [] ∧ (("http").toList.isPrefixOf v) = true) ∧
    generateMarkdownContent (fun _ _ => []) none (("d/B_transcript.txt").toList)
        (.error (("boom").toList)) (.ok (("- P").toList)) (("d/B_visual_map.png").toList)
        (("d/B.md").toList)
      = ('#' :: ' ' :: pySplitextStem (pyBasename (("d/B_transcript.txt").toList))) ++ '\n' ::
        (("\n## Video\n").toList ++ httpVideoEmbed none ++
          (("\n## Resumen\nError reading summary file.\n").toList ++
            (("\n## Mapa Conceptual\n```\n").toList ++ ("- P").toList ++ ("\n```\n").toList ++
              (("\n## Mapa Visual\n![Mapa Visual](").toList ++
                (pyBasename (("d/B_visual_map.png").toList) ++ (")\n").toList))))) :=
  ⟨Or.inl rfl,
    C6_missing_summary_placeholder (fun _ _ => []) none (("d/B_transcript.txt").toList)
      (("boom").toList) (("- P").toList) (("d/B_visual_map.png").toList)
      (("d/B.md").toList) (Or.inl rfl)⟩

end CourseraScraper
